import Mathlib

/-!
Verification of the resilient streaming data-access layer: connection
scope, transaction guard, retry policy, result cache, streaming cursor,
batch windower, lazy paginator and concurrent query orchestrator, as
implemented in `python-decorators-0x01`, `python-generators-0x00` and
`python-context-async-perations-0x02`.

Effectful Python functions are embedded as pure Lean functions that
return their result together with an explicit trace of the side effects
relevant to the properties (connection open/close events, commit and
rollback events, numbers of invocations of a wrapped operation, offsets
of page fetches). A wrapped operation that may raise is an
`Except ε α` value; re-raising is propagation of the same `ε` value.
-/

namespace AccessLayer

/-- Row of the `user_data` / `users` table (columns as created by the
seeding script: identifier, name, email, numeric age). -/
structure Record where
  user_id : Nat
  name : String
  email : String
  age : Nat
deriving DecidableEq, Repr

/-- Driver-level error (carries the message of the raised exception). -/
abbrev DBError := String

/-- Sample row used in concrete checks. -/
def sampleRow : Record :=
  { user_id := 1, name := "Ada", email := "ada@example.com", age := 30 }

/-- Connection handle; the model identifies a handle with the database
name it was opened on. -/
abbrev Conn := String

/-- Connection lifecycle events emitted by the scope wrappers. -/
inductive ConnEvent where
  | connect
  | close
deriving DecidableEq, Repr

/-- Transaction events emitted by the transactional wrapper. -/
inductive TxEvent where
  | commit
  | rollback
deriving DecidableEq, Repr

/-! ## Connection Scope: `with_db_connection` and `DatabaseConnection` -/

/-- Embedding of the decorator `with_db_connection`
(`python-decorators-0x01/1-with_db_connection.py`): open a connection to
`users.db`, run the decorated function with it inside `try`, and close
the connection in the `finally` block on both the normal-return path and
the raising path, propagating the outcome of the function unchanged. -/
def with_db_connection (op : Conn → Except ε α) : Except ε α × List ConnEvent :=
  let conn : Conn := "users.db"
  match op conn with
  | Except.ok a => (Except.ok a, [ConnEvent.connect, ConnEvent.close])
  | Except.error e => (Except.error e, [ConnEvent.connect, ConnEvent.close])

/-- State of the class-based context manager `DatabaseConnection`
(`python-context-async-perations-0x02/0-databaseconnection.py`). -/
structure DatabaseConnection where
  db_name : String
  connection : Option Conn
deriving DecidableEq, Repr

/-- Embedding of `DatabaseConnection.__init__`: stores the database name
and sets `connection` to `None`. -/
def DatabaseConnection.new (db_name : String) : DatabaseConnection :=
  { db_name := db_name, connection := none }

/-- Embedding of `DatabaseConnection.__enter__`: opens the connection,
stores it on the instance and returns it. -/
def DatabaseConnection.enter (self : DatabaseConnection) : DatabaseConnection × Conn :=
  let c : Conn := self.db_name
  ({ self with connection := some c }, c)

/-- Embedding of `DatabaseConnection.__exit__`: closes the connection if
one was opened, and returns `False` so that exceptions propagate. The
second component is the trace of close events it emits. -/
def DatabaseConnection.exit (self : DatabaseConnection) : Bool × List ConnEvent :=
  match self.connection with
  | some _ => (false, [ConnEvent.close])
  | none => (false, [])

/-- Embedding of the `with DatabaseConnection(db_name) as conn: body`
statement: enter, run the body, always run `__exit__`; a `True` return
from `__exit__` would suppress the exception (yielding `ok none`),
otherwise the exception raised by the body propagates. -/
def withDatabaseConnection (db_name : String) (body : Conn → Except ε α) :
    Except ε (Option α) × List ConnEvent :=
  let p := (DatabaseConnection.new db_name).enter
  let r := body p.2
  let q := p.1.exit
  let events := ConnEvent.connect :: q.2
  match r with
  | Except.ok a => (Except.ok (some a), events)
  | Except.error e => (if q.1 then Except.ok none else Except.error e, events)

/-! ## Transaction Guard: `transactional` -/

/-- Embedding of the decorator `transactional`
(`python-decorators-0x01/2-transactional.py`): run the function on the
given connection; on success `conn.commit()` and return the result; on
any exception `conn.rollback()` and re-raise the same exception. -/
def transactional (op : Conn → Except ε α) (conn : Conn) : Except ε α × List TxEvent :=
  match op conn with
  | Except.ok a => (Except.ok a, [TxEvent.commit])
  | Except.error e => (Except.error e, [TxEvent.rollback])

/-! ## Retry Policy: `retry_on_failure` -/

/-- Outcome of a call through the retry wrapper. `raise last_exception`
with `last_exception = None` raises the Python `TypeError: exceptions
must derive from BaseException`, modelled as `typeError`. -/
inductive RetryResult (ε α : Type) where
  | ok (a : α)
  | raised (e : ε)
  | typeError
deriving DecidableEq, Repr

/-- Embedding of the `while attempt < retries` loop of
`retry_on_failure` (`python-decorators-0x01/3-retry_on_failure.py`).
`f i` is the outcome of the `(i+1)`-th invocation of the wrapped
function; `fuel = retries - attempt` is the number of loop iterations
left; `last` is the `last_exception` variable. Returns the call outcome
together with the number of invocations of the wrapped function
performed. The `time.sleep(delay)` between attempts has no effect on
the outcome and is not traced. -/
def retryLoop (f : Nat → Except ε α) : Nat → Nat → Option ε → RetryResult ε α × Nat
  | 0, _, none => (RetryResult.typeError, 0)
  | 0, _, some e => (RetryResult.raised e, 0)
  | Nat.succ fuel, attempt, _ =>
    match f attempt with
    | Except.ok a => (RetryResult.ok a, 1)
    | Except.error e =>
      let r := retryLoop f fuel (attempt + 1) (some e)
      (r.1, r.2 + 1)

/-- Embedding of a call to a function wrapped by
`retry_on_failure(retries, delay)`: the loop starts with `attempt = 0`
and `last_exception = None`. -/
def retry_on_failure (retries : Nat) (f : Nat → Except ε α) : RetryResult ε α × Nat :=
  retryLoop f retries 0 none

/-! ## Result Cache: `cache_query` -/

/-- Lookup in the global `query_cache` dictionary, keyed by the query
text alone. -/
def query_cache_lookup (cache : List (String × α)) (q : String) : Option α :=
  match cache with
  | [] => none
  | (k, v) :: rest => if k = q then some v else query_cache_lookup rest q

/-- Embedding of one call through the `cache_query` decorator
(`python-decorators-0x01/4-cache_query.py`): if the query text is a key
of `query_cache`, return the cached value without calling the wrapped
function; otherwise call it, store the result under the query text and
return it. Returns the result, the updated cache, and the number of
invocations of the wrapped function (0 or 1). -/
def cache_query (cache : List (String × α)) (q : String) (op : Unit → α) :
    α × List (String × α) × Nat :=
  match query_cache_lookup cache q with
  | some v => (v, cache, 0)
  | none =>
    let result := op ()
    (result, (q, result) :: cache, 1)

/-! ## Streaming Cursor: `stream_users` -/

/-- Cursor as seen by the `for row in cursor` loop: a sequence of
`next()` outcomes, each either a fetched row or a raised driver error
(after which the cursor produces nothing further). -/
def cursorOf (rows : List Record) : List (Except DBError Record) :=
  rows.map Except.ok

/-- The `for row in cursor: yield dict(row)` loop of `stream_users`:
returns the rows yielded before exhaustion or error, and the error that
escaped the loop, if any. -/
def streamLoop : List (Except DBError Record) → List Record × Option DBError
  | [] => ([], none)
  | Except.ok r :: rest =>
    let p := streamLoop rest
    (r :: p.1, p.2)
  | Except.error e :: _ => ([], some e)

/-- What a full consumption of the `stream_users` generator produced. -/
structure StreamOutcome where
  yielded : List Record
  raisedToConsumer : Option DBError
  events : List ConnEvent
deriving DecidableEq, Repr

/-- Embedding of `stream_users`
(`python-generators-0x00/0-stream_users.py`): connect, iterate the
cursor yielding each row, then close cursor and connection — all inside
a `try` whose `except` clauses catch any driver or other error, print
it, and fall off the end of the generator. Hence on a clean exhaustion
the connection is closed; on an error during iteration the `except`
clause swallows the error (nothing reaches the consumer, which sees a
normally-terminated stream) and the close calls are skipped. -/
def stream_users (items : List (Except DBError Record)) : StreamOutcome :=
  let p := streamLoop items
  match p.2 with
  | none => { yielded := p.1, raisedToConsumer := none,
              events := [ConnEvent.connect, ConnEvent.close] }
  | some _ => { yielded := p.1, raisedToConsumer := none,
                events := [ConnEvent.connect] }

/-! ## Batch Windower: `stream_users_in_batches` -/

/-- The `while True: batch = cursor.fetchmany(batch_size)` loop of
`stream_users_in_batches` (`python-generators-0x00/1-batch_processing.py`):
`fetchmany` returns the next `batch_size` rows (fewer at the end, the
empty list on exhaustion or when asked for 0 rows), and the loop breaks
on an empty batch. -/
def batchLoop (l : List Record) (W : Nat) : List (List Record) :=
  if h : W = 0 ∨ l = [] then []
  else l.take W :: batchLoop (l.drop W) W
termination_by l.length
decreasing_by
  simp only [not_or] at h
  have hl : l.length ≠ 0 := by
    simpa [List.length_eq_zero] using h.2
  have hW : 0 < W := Nat.pos_of_ne_zero h.1
  simp only [List.length_drop]
  omega

/-- Embedding of `stream_users_in_batches` on a store whose cursor
produces `rows`: the sequence of batches yielded. -/
def stream_users_in_batches (rows : List Record) (batch_size : Nat) : List (List Record) :=
  batchLoop rows batch_size

/-! ## Lazy Paginator: `paginate_users` and `lazy_pagination` -/

/-- What one call to `paginate_users` produced. -/
structure PageOutcome where
  page : List Record
  raisedToConsumer : Option DBError
  events : List ConnEvent
deriving DecidableEq, Repr

/-- Embedding of `paginate_users(page_size, offset)`
(`python-generators-0x00/2-lazy_paginate.py`): connect, run
`SELECT * FROM user_data LIMIT page_size OFFSET offset`, close and
return the rows; `err` injects a driver error during the fetch, in
which case the `except` clause catches it, prints it and returns the
empty list — the error does not reach the caller and the close calls
are skipped. -/
def paginate_users (rows : List Record) (err : Option DBError)
    (page_size offset : Nat) : PageOutcome :=
  match err with
  | none => { page := (rows.drop offset).take page_size,
              raisedToConsumer := none,
              events := [ConnEvent.connect, ConnEvent.close] }
  | some _ => { page := [], raisedToConsumer := none,
                events := [ConnEvent.connect] }

/-- The `while True` loop of `lazy_pagination`: fetch the page at the
current offset, stop on an empty page, otherwise yield it and advance
the offset by `page_size`. Returns the yielded pages and the trace of
`(offset, limit)` fetches performed (the final empty fetch included). -/
def lazyLoop (rows : List Record) (P offset : Nat) :
    List (List Record) × List (Nat × Nat) :=
  if h : (paginate_users rows none P offset).page = [] then ([], [(offset, P)])
  else
    let rest := lazyLoop rows P (offset + P)
    ((paginate_users rows none P offset).page :: rest.1, (offset, P) :: rest.2)
termination_by rows.length - offset
decreasing_by
  simp only [paginate_users, List.take_eq_nil_iff, not_or] at h
  have hoff : offset < rows.length := by
    have hlen : 0 < (List.drop offset rows).length := List.length_pos.mpr h.2
    rw [List.length_drop] at hlen
    omega
  have hP : 0 < P := Nat.pos_of_ne_zero h.1
  omega

/-- Embedding of the generator `lazy_pagination(page_size)`: the loop
starts at `offset = 0`. -/
def lazy_pagination (rows : List Record) (P : Nat) :
    List (List Record) × List (Nat × Nat) :=
  lazyLoop rows P 0

/-! ## Concurrent Query Orchestrator: `fetch_concurrently` -/

/-- Result of `async_fetch_users`: all rows of the table. -/
def async_fetch_users (rows : List Record) : List Record :=
  rows

/-- Result of `async_fetch_older_users`: the rows with `age > 40`. -/
def async_fetch_older_users (rows : List Record) : List Record :=
  rows.filter (fun r => 40 < r.age)

/-- An awaitable operation passed to `asyncio.gather`: it completes
after being scheduled `duration` times and then has produced `result`.
Each operation owns its own connection; no state is shared. -/
structure AsyncTask (α : Type) where
  duration : Nat
  result : α

/-- Joint state of the two tasks gathered by `fetch_concurrently`:
remaining steps and recorded result of each. -/
structure GatherState (α β : Type) where
  rem1 : Nat
  rem2 : Nat
  res1 : Option α
  res2 : Option β

/-- Initial state: nothing has run; a task of duration 0 is complete
immediately. -/
def initState (t1 : AsyncTask α) (t2 : AsyncTask β) : GatherState α β :=
  { rem1 := t1.duration, rem2 := t2.duration,
    res1 := if t1.duration = 0 then some t1.result else none,
    res2 := if t2.duration = 0 then some t2.result else none }

/-- One scheduler step: the chosen task advances by one step (a no-op if
it already completed); on its last step it records its result. -/
def stepTask (t1 : AsyncTask α) (t2 : AsyncTask β) (s : GatherState α β)
    (choose1 : Bool) : GatherState α β :=
  if choose1 then
    match s.rem1 with
    | 0 => s
    | Nat.succ n =>
      { s with rem1 := n, res1 := if n = 0 then some t1.result else s.res1 }
  else
    match s.rem2 with
    | 0 => s
    | Nat.succ n =>
      { s with rem2 := n, res2 := if n = 0 then some t2.result else s.res2 }

/-- Run the cooperative scheduler over an arbitrary interleaving: each
list element says which task runs next. -/
def runSched (t1 : AsyncTask α) (t2 : AsyncTask β) :
    GatherState α β → List Bool → GatherState α β
  | s, [] => s
  | s, b :: rest => runSched t1 t2 (stepTask t1 t2 s b) rest

/-- The join of `asyncio.gather`: it resolves only once both tasks have
recorded a result, and orders the pair by input position, not by
completion order. -/
def gatherResult (s : GatherState α β) : Option (α × β) :=
  match s.res1, s.res2 with
  | some a, some b => some (a, b)
  | _, _ => none

/-- Embedding of `fetch_concurrently`
(`python-context-async-perations-0x02/3-concurrent.py`): both operations
are handed to `asyncio.gather`; under the interleaving `sched` the call
returns the joined, input-ordered pair once both are complete, and
nothing before that (`none` means the gather is still pending at the
end of `sched`). -/
def fetch_concurrently (t1 : AsyncTask α) (t2 : AsyncTask β)
    (sched : List Bool) : Option (α × β) :=
  gatherResult (runSched t1 t2 (initState t1 t2) sched)

/-! ## Theorems -/

/-- Claim C1: for every operation run through the connection scope — the
`with_db_connection` wrapper or the `DatabaseConnection` context
manager — close on the underlying connection is invoked exactly once on
every exit path: on normal return (an early return is a normal return of
the wrapped function), and on a raised exception; the outcome of the
operation is propagated unchanged. -/
theorem connection_scope_close_exactly_once (ε α : Type)
    (op : Conn → Except ε α) (db_name : String) (body : Conn → Except ε α) :
    (with_db_connection op).2.count ConnEvent.close = 1
    ∧ (with_db_connection op).1 = op "users.db"
    ∧ (withDatabaseConnection db_name body).2.count ConnEvent.close = 1
    ∧ (withDatabaseConnection db_name body).1 = (body db_name).map some := by
  refine ⟨?_, ?_, ?_, ?_⟩
  · cases h : op "users.db" <;>
      simp [with_db_connection, h, List.count_cons]
  · cases h : op "users.db" <;> simp [with_db_connection, h]
  · cases h : body db_name <;>
      simp [withDatabaseConnection, DatabaseConnection.new,
        DatabaseConnection.enter, DatabaseConnection.exit, h, List.count_cons]
  · cases h : body db_name <;>
      simp [withDatabaseConnection, DatabaseConnection.new,
        DatabaseConnection.enter, DatabaseConnection.exit, h, Except.map]

/-- Concrete check of claim C1 at a raising operation. -/
theorem connection_scope_close_exactly_once_witness :
    ((with_db_connection (fun _ => Except.error "boom") :
        Except String Nat × List ConnEvent).2.count ConnEvent.close = 1)
    ∧ ((withDatabaseConnection "users.db" (fun _ => Except.error "boom") :
        Except String (Option Nat) × List ConnEvent).2.count ConnEvent.close = 1) :=
  ⟨(connection_scope_close_exactly_once String Nat (fun _ => Except.error "boom")
      "users.db" (fun _ => Except.error "boom")).1,
   (connection_scope_close_exactly_once String Nat (fun _ => Except.error "boom")
      "users.db" (fun _ => Except.error "boom")).2.2.1⟩

/-- Claim C2: for every operation wrapped by `transactional`, exactly
one of commit and rollback occurs — commit exactly when the operation
returns normally, rollback exactly when it raises — and in the raising
case the original exception reaches the caller unchanged. -/
theorem transactional_commit_rollback_exclusivity (ε α : Type)
    (op : Conn → Except ε α) (conn : Conn) :
    (transactional op conn).2.count TxEvent.commit
      + (transactional op conn).2.count TxEvent.rollback = 1
    ∧ (∀ a, op conn = Except.ok a →
        (transactional op conn).2 = [TxEvent.commit]
        ∧ (transactional op conn).1 = Except.ok a)
    ∧ (∀ e, op conn = Except.error e →
        (transactional op conn).2 = [TxEvent.rollback]
        ∧ (transactional op conn).1 = Except.error e) := by
  refine ⟨?_, ?_, ?_⟩
  · cases h : op conn <;> simp [transactional, h, List.count_cons]
  · intro a ha; simp [transactional, ha]
  · intro e he; simp [transactional, he]

/-- Concrete check of claim C2 at a succeeding and at a raising
operation. -/
theorem transactional_commit_rollback_exclusivity_witness :
    ((transactional (fun _ => Except.ok 5) "users.db" :
        Except String Nat × List TxEvent).2 = [TxEvent.commit])
    ∧ ((transactional (fun _ => Except.error "dup key") "users.db" :
        Except String Nat × List TxEvent).1 = Except.error "dup key") :=
  ⟨((transactional_commit_rollback_exclusivity String Nat
      (fun _ => Except.ok 5) "users.db").2.1 5 rfl).1,
   ((transactional_commit_rollback_exclusivity String Nat
      (fun _ => Except.error "dup key") "users.db").2.2 "dup key" rfl).2⟩

/-- Claim C3, counterexample: a driver error raised while `stream_users`
is producing records is not propagated to the consumer, and the
connection is not closed; likewise a driver error during a
`paginate_users` fetch is not propagated and the connection is not
closed. -/
theorem stream_error_not_propagated_cex :
    (stream_users [Except.ok sampleRow, Except.error "connection lost"]).raisedToConsumer = none
    ∧ ConnEvent.close ∉
        (stream_users [Except.ok sampleRow, Except.error "connection lost"]).events
    ∧ (paginate_users [sampleRow] (some "connection lost") 1 0).raisedToConsumer = none
    ∧ ConnEvent.close ∉
        (paginate_users [sampleRow] (some "connection lost") 1 0).events := by
  refine ⟨rfl, ?_, rfl, ?_⟩ <;> decide

/-- Claim C3 as amended: a driver error raised while the streaming
cursor or a page fetch is producing records is caught inside the
component and never reaches the consumer — the stream simply terminates
after the records already yielded and the page fetch returns the empty
list — and on that error path the connection is not closed; the
connection is closed only on the error-free path. -/
theorem stream_error_swallowed (items : List (Except DBError Record))
    (rows : List Record) (e : DBError) (P offset : Nat) :
    (stream_users items).raisedToConsumer = none
    ∧ ((streamLoop items).2.isSome →
        (stream_users items).events = [ConnEvent.connect])
    ∧ ((streamLoop items).2 = none →
        (stream_users items).events = [ConnEvent.connect, ConnEvent.close])
    ∧ paginate_users rows (some e) P offset
        = { page := [], raisedToConsumer := none, events := [ConnEvent.connect] } := by
  refine ⟨?_, ?_, ?_, rfl⟩ <;> cases h : (streamLoop items).2 <;>
    simp [stream_users, h]

/-- Concrete check of the amended statement of claim C3 on an erroring
cursor. -/
theorem stream_error_swallowed_witness :
    (stream_users [Except.ok sampleRow, Except.error "connection lost"]).events
      = [ConnEvent.connect] :=
  (stream_error_swallowed [Except.ok sampleRow, Except.error "connection lost"]
      [sampleRow] "connection lost" 1 0).2.1 rfl

/-- Claim C5: calling the cached query wrapper twice with the same query
key invokes the underlying operation exactly once — on the first call —
and the second call returns the result of the first call without invoking its
operation (even a different one: the entry is keyed by the query text
alone). -/
theorem cache_query_idempotence (α : Type) (cache : List (String × α))
    (q : String) (op op2 : Unit → α)
    (h : query_cache_lookup cache q = none) :
    (cache_query cache q op).2.2 = 1
    ∧ (cache_query (cache_query cache q op).2.1 q op2).2.2 = 0
    ∧ (cache_query (cache_query cache q op).2.1 q op2).1
        = (cache_query cache q op).1 := by
  refine ⟨?_, ?_, ?_⟩ <;> simp [cache_query, h, query_cache_lookup]

/-- Concrete check of claim C5 on an empty cache. -/
theorem cache_query_idempotence_witness :
    (cache_query ([] : List (String × Nat)) "SELECT * FROM users" (fun _ => 41)).2.2 = 1
    ∧ (cache_query (cache_query ([] : List (String × Nat)) "SELECT * FROM users"
        (fun _ => 41)).2.1 "SELECT * FROM users" (fun _ => 42)).2.2 = 0
    ∧ (cache_query (cache_query ([] : List (String × Nat)) "SELECT * FROM users"
        (fun _ => 41)).2.1 "SELECT * FROM users" (fun _ => 42)).1
        = (cache_query ([] : List (String × Nat)) "SELECT * FROM users"
            (fun _ => 41)).1 :=
  cache_query_idempotence Nat [] "SELECT * FROM users" (fun _ => 41) (fun _ => 42) rfl

/-- Iterating the `for row in cursor` loop over an error-free cursor
yields exactly the rows of the cursor and escapes no error. -/
theorem streamLoop_cursorOf (rows : List Record) :
    streamLoop (cursorOf rows) = (rows, none) := by
  induction rows with
  | nil => rfl
  | cons r rest ih => simp [cursorOf, streamLoop] at ih ⊢ <;> simp [ih]

/-- Claim C6: over a store containing M rows, one full iteration of
`stream_users` yields exactly the M records of the store, each exactly once,
in the order the store returns them, then terminates (with the
connection closed and nothing raised). -/
theorem stream_users_exhaustion (rows : List Record) :
    (stream_users (cursorOf rows)).yielded = rows
    ∧ (stream_users (cursorOf rows)).yielded.length = rows.length
    ∧ (stream_users (cursorOf rows)).raisedToConsumer = none
    ∧ (stream_users (cursorOf rows)).events
        = [ConnEvent.connect, ConnEvent.close] := by
  refine ⟨?_, ?_, ?_, ?_⟩ <;> simp [stream_users, streamLoop_cursorOf rows]

/-- Concrete check of claim C6 on a one-row store. -/
theorem stream_users_exhaustion_witness :
    (stream_users (cursorOf [sampleRow])).yielded = [sampleRow] :=
  (stream_users_exhaustion [sampleRow]).1

/-- Claim C10: a call through `retry_on_failure` with `retries = 0`
never invokes the wrapped operation, and the final
`raise last_exception` executes with `last_exception` still `None`,
producing a `TypeError` rather than a domain error or a result. -/
theorem retry_zero_attempts_typeError (ε α : Type) (f : Nat → Except ε α) :
    retry_on_failure 0 f = (RetryResult.typeError, 0) := rfl

/-- Concrete check of claim C10. -/
theorem retry_zero_attempts_typeError_witness :
    retry_on_failure 0 (fun _ => Except.ok 3 : Nat → Except String Nat)
      = (RetryResult.typeError, 0) :=
  retry_zero_attempts_typeError String Nat (fun _ => Except.ok 3)

/-- One iteration of the retry loop on a failing invocation: consume
one unit of fuel, record the exception and recurse, counting the
invocation. -/
theorem retryLoop_succ_error (ε α : Type) (f : Nat → Except ε α)
    (fuel attempt : Nat) (last : Option ε) (e : ε)
    (h : f attempt = Except.error e) :
    retryLoop f (fuel + 1) attempt last
      = ((retryLoop f fuel (attempt + 1) (some e)).1,
         (retryLoop f fuel (attempt + 1) (some e)).2 + 1) := by
  simp [retryLoop, h]

/-- One iteration of the retry loop on a succeeding invocation: return
the result after this single invocation. -/
theorem retryLoop_succ_ok (ε α : Type) (f : Nat → Except ε α)
    (fuel attempt : Nat) (last : Option ε) (a : α)
    (h : f attempt = Except.ok a) :
    retryLoop f (fuel + 1) attempt last = (RetryResult.ok a, 1) := by
  simp [retryLoop, h]

/-- Retry loop on an operation that fails at every attempt it is given:
the loop consumes all its fuel, invoking the operation once per unit of
fuel, and surfaces the failure of the last invocation. -/
theorem retryLoop_all_fail (ε α : Type) (f : Nat → Except ε α) (errOf : Nat → ε) :
    ∀ fuel attempt last, 0 < fuel →
      (∀ i, i < fuel → f (attempt + i) = Except.error (errOf (attempt + i))) →
      retryLoop f fuel attempt last
        = (RetryResult.raised (errOf (attempt + (fuel - 1))), fuel) := by
  intro fuel
  induction fuel with
  | zero => intro attempt last h0 _; exact absurd h0 (by omega)
  | succ fuel ih =>
    intro attempt last _ hf
    have h0 : f attempt = Except.error (errOf attempt) := by
      simpa using hf 0 (Nat.succ_pos _)
    cases fuel with
    | zero => simp [retryLoop, h0]
    | succ fuel2 =>
      have hrec := ih (attempt + 1) (some (errOf attempt)) (Nat.succ_pos _)
        (fun i hi => by
          have h2 := hf (i + 1) (by omega)
          have he : attempt + 1 + i = attempt + (i + 1) := by omega
          rw [he]; exact h2)
      have he : attempt + 1 + (fuel2 + 1 - 1) = attempt + (fuel2 + 1 + 1 - 1) := by
        omega
      rw [he] at hrec
      rw [retryLoop_succ_error ε α f (fuel2 + 1) attempt last (errOf attempt) h0,
        hrec]

/-- Retry loop on an operation that fails `k` times and then succeeds,
with more than `k` units of fuel left: the loop returns the successful
result after exactly `k + 1` invocations. -/
theorem retryLoop_succeeds (ε α : Type) (f : Nat → Except ε α) (errOf : Nat → ε) :
    ∀ k fuel attempt last a, k < fuel →
      (∀ i, i < k → f (attempt + i) = Except.error (errOf (attempt + i))) →
      f (attempt + k) = Except.ok a →
      retryLoop f fuel attempt last = (RetryResult.ok a, k + 1) := by
  intro k
  induction k with
  | zero =>
    intro fuel attempt last a hk _ hok
    cases fuel with
    | zero => omega
    | succ fuel =>
      simp only [Nat.add_zero] at hok
      simp [retryLoop, hok]
  | succ k ih =>
    intro fuel attempt last a hk hf hok
    cases fuel with
    | zero => omega
    | succ fuel =>
      have h0 : f attempt = Except.error (errOf attempt) := by
        simpa using hf 0 (Nat.succ_pos _)
      have hrec := ih fuel (attempt + 1) (some (errOf attempt)) a (by omega)
        (fun i hi => by
          have h2 := hf (i + 1) (by omega)
          have he : attempt + 1 + i = attempt + (i + 1) := by omega
          rw [he]; exact h2)
        (by
          have he : attempt + 1 + k = attempt + (k + 1) := by omega
          rw [he]; exact hok)
      rw [retryLoop_succ_error ε α f fuel attempt last (errOf attempt) h0, hrec]

/-- Claim C4: for `retry_on_failure` configured with `retries = N`
(`N ≥ 1`): if the operation fails on every invocation it is invoked
exactly N times and the N-th failure is the exception surfaced to the
caller; if it fails `k < N` times and then succeeds, the successful
result is returned after exactly `k + 1` invocations, with no further
attempts. (`f i` is the outcome of the `(i+1)`-th invocation; the
second component counts invocations.) -/
theorem retry_on_failure_bound_and_success (ε α : Type) (N : Nat) (hN : 0 < N)
    (f : Nat → Except ε α) (errOf : Nat → ε) :
    ((∀ i, i < N → f i = Except.error (errOf i)) →
      retry_on_failure N f = (RetryResult.raised (errOf (N - 1)), N))
    ∧ (∀ k a, k < N → (∀ i, i < k → f i = Except.error (errOf i)) →
        f k = Except.ok a →
        retry_on_failure N f = (RetryResult.ok a, k + 1)) := by
  constructor
  · intro hf
    have h := retryLoop_all_fail ε α f errOf N 0 none hN
      (fun i hi => by simpa using hf i hi)
    simpa [retry_on_failure] using h
  · intro k a hk hf hok
    have h := retryLoop_succeeds ε α f errOf k N 0 none a hk
      (fun i hi => by simpa using hf i hi) (by simpa using hok)
    simpa [retry_on_failure] using h

/-- Concrete check of claim C4: with `retries = 3`, an operation that
fails twice then succeeds is invoked exactly 3 times and its result is
returned; an operation that always fails is invoked exactly 3 times and
the third failure is surfaced. -/
theorem retry_on_failure_bound_and_success_witness :
    retry_on_failure 3 (fun i => if i < 2 then Except.error (toString i) else Except.ok 7)
      = (RetryResult.ok 7, 3)
    ∧ retry_on_failure 3 (fun i => (Except.error (toString i) : Except String Nat))
      = (RetryResult.raised "2", 3) :=
  ⟨(retry_on_failure_bound_and_success String Nat 3 (by decide)
      (fun i => if i < 2 then Except.error (toString i) else Except.ok 7)
      (fun i => toString i)).2 2 7 (by decide)
      (fun i hi => by interval_cases i <;> rfl) rfl,
   (retry_on_failure_bound_and_success String Nat 3 (by decide)
      (fun i => Except.error (toString i)) (fun i => toString i)).1
      (fun i _ => rfl)⟩

/-- The fetchmany loop on an exhausted cursor yields no batch. -/
theorem batchLoop_nil (W : Nat) : batchLoop [] W = [] := by
  rw [batchLoop]
  simp

/-- One iteration of the fetchmany loop on a non-empty cursor with a
positive window: yield the next window and continue on the rest. -/
theorem batchLoop_cons (l : List Record) (W : Nat) (hW : 0 < W) (hl : l ≠ []) :
    batchLoop l W = l.take W :: batchLoop (l.drop W) W := by
  rw [batchLoop]
  simp [hl, Nat.pos_iff_ne_zero.mp hW]

/-- Ceiling division in terms of floor division and a remainder
indicator. -/
theorem ceil_div_split (n W : Nat) (hW : 0 < W) :
    (n + W - 1) / W = n / W + (if n % W = 0 then 0 else 1) := by
  obtain ⟨q, r, hr, rfl⟩ : ∃ q r, r < W ∧ n = W * q + r :=
    ⟨n / W, n % W, Nat.mod_lt n hW, (Nat.div_add_mod n W).symm⟩
  have hadd : W * q + r + W - 1 = W * q + (r + W - 1) := by
    generalize W * q = m
    omega
  rw [hadd, Nat.mul_add_div hW, Nat.mul_add_div hW, Nat.mul_add_mod,
    Nat.div_eq_of_lt hr, Nat.mod_eq_of_lt hr]
  rcases Nat.eq_zero_or_pos r with rfl | hrpos
  · simp [Nat.div_eq_of_lt (show W - 1 < W by omega)]
  · have h2 : r + W - 1 = (r - 1) + W := by omega
    rw [h2, Nat.add_div_right _ hW, Nat.div_eq_of_lt (show r - 1 < W by omega)]
    simp [Nat.pos_iff_ne_zero.mp hrpos]

/-- Sizes of the batches produced by the fetchmany loop: `⌊n/W⌋` full
windows followed by one window of `n mod W` rows when `W` does not
divide `n`. -/
theorem batchLoop_map_length : ∀ (l : List Record) (W : Nat), 0 < W →
    (batchLoop l W).map List.length
      = List.replicate (l.length / W) W
        ++ (if l.length % W = 0 then [] else [l.length % W]) := by
  intro l W
  induction l, W using batchLoop.induct with
  | case1 l W h =>
    intro hW
    rcases h with h | h
    · subst h
      exact absurd hW (lt_irrefl 0)
    · subst h
      simp [batchLoop_nil]
  | case2 l W h ih =>
    intro hW
    simp only [not_or] at h
    have hl : l ≠ [] := h.2
    have hn : 0 < l.length := List.length_pos.mpr hl
    rw [batchLoop_cons l W hW hl, List.map_cons, ih hW]
    rw [List.length_take, List.length_drop]
    rcases Nat.lt_or_ge l.length W with hlt | hge
    · have h1 : min W l.length = l.length := by omega
      have h4 : l.length - W = 0 := by omega
      rw [h1, h4, Nat.div_eq_of_lt hlt, Nat.mod_eq_of_lt hlt]
      simp [Nat.pos_iff_ne_zero.mp hn]
    · have h1 : min W l.length = W := by omega
      have hdiv : l.length / W = (l.length - W) / W + 1 := by
        conv_lhs => rw [Nat.div_eq l.length W]
        simp [hW, hge]
      have hmod : l.length % W = (l.length - W) % W := by
        conv_lhs => rw [Nat.mod_eq l.length W]
        simp [hW, hge]
      rw [h1, hdiv, hmod, List.replicate_succ]
      simp

/-- Number of batches produced by the fetchmany loop: `⌈n/W⌉`. -/
theorem batchLoop_length (l : List Record) (W : Nat) (hW : 0 < W) :
    (batchLoop l W).length = (l.length + W - 1) / W := by
  have h2 := congrArg List.length (batchLoop_map_length l W hW)
  rw [List.length_map, List.length_append, List.length_replicate] at h2
  rw [h2, ceil_div_split l.length W hW]
  split <;> simp

/-- Size of the i-th element of a list of lists, read through `getD`. -/
theorem map_length_getD (B : List (List Record)) (i : Nat) :
    (B.map List.length).getD i 0 = (B.getD i []).length := by
  simp only [List.getD_eq_getElem?_getD, List.getElem?_map]
  cases h : B[i]? <;> simp [h]

/-- Every batch except possibly the last has exactly `W` rows. -/
theorem batchLoop_sizes (l : List Record) (W : Nat) (hW : 0 < W) (i : Nat)
    (hi : i + 1 < (batchLoop l W).length) :
    ((batchLoop l W).getD i []).length = W := by
  have hmap := batchLoop_map_length l W hW
  have hlen : (batchLoop l W).length
      = l.length / W + (if l.length % W = 0 then 0 else 1) := by
    have h2 := congrArg List.length hmap
    rw [List.length_map, List.length_append, List.length_replicate] at h2
    rw [h2]
    split <;> simp
  have hiq : i < l.length / W := by
    rw [hlen] at hi
    split at hi <;> omega
  rw [← map_length_getD, hmap]
  simp only [List.getD_eq_getElem?_getD]
  rw [List.getElem?_append_left (by simpa using hiq)]
  simp [hiq]

/-- The last batch has `n mod W` rows, or `W` when `W` divides `n`. -/
theorem batchLoop_last (l : List Record) (W : Nat) (hW : 0 < W) (hl : l ≠ []) :
    ((batchLoop l W).map List.length).getLast?
      = some (if l.length % W = 0 then W else l.length % W) := by
  rw [batchLoop_map_length l W hW]
  by_cases h0 : l.length % W = 0
  · have hq : 0 < l.length / W := by
      rcases Nat.eq_zero_or_pos (l.length / W) with hq0 | hq
      · exfalso
        have hdm := Nat.div_add_mod l.length W
        rw [hq0, h0] at hdm
        simp at hdm
        exact hl (List.length_eq_zero.mp hdm.symm)
      · exact hq
    rw [if_pos h0, if_pos h0, List.append_nil]
    obtain ⟨q, hq2⟩ : ∃ q, l.length / W = q + 1 := ⟨l.length / W - 1, by omega⟩
    rw [hq2, List.getLast?_replicate]
    simp
  · rw [if_neg h0, if_neg h0]
    exact List.getLast?_concat _

/-- No batch produced by the fetchmany loop is empty. -/
theorem batchLoop_ne_nil : ∀ (l : List Record) (W : Nat),
    ∀ b ∈ batchLoop l W, b ≠ [] := by
  intro l W
  induction l, W using batchLoop.induct with
  | case1 l W h =>
    rw [batchLoop]
    simp [h]
  | case2 l W h ih =>
    simp only [not_or] at h
    rw [batchLoop_cons l W (Nat.pos_of_ne_zero h.1) h.2]
    intro b hb
    rcases List.mem_cons.mp hb with rfl | hb2
    · simp [List.take_eq_nil_iff, h.1, h.2]
    · exact ih b hb2

/-- Content of the i-th batch: the window of `W` rows starting at row
`i * W`. -/
theorem batchLoop_getD : ∀ (l : List Record) (W : Nat), 0 < W → ∀ i,
    i < (batchLoop l W).length →
    (batchLoop l W).getD i [] = (l.drop (i * W)).take W := by
  intro l W
  induction l, W using batchLoop.induct with
  | case1 l W h =>
    intro hW i hi
    rcases h with h | h
    · subst h
      exact absurd hW (lt_irrefl 0)
    · subst h
      rw [batchLoop_nil] at hi
      simp at hi
  | case2 l W h ih =>
    intro hW i hi
    simp only [not_or] at h
    rw [batchLoop_cons l W hW h.2] at hi ⊢
    cases i with
    | zero => simp
    | succ i =>
      rw [List.getD_cons_succ, ih hW i (by simpa using hi), List.drop_drop]
      have he : (i + 1) * W = W + i * W := by
        rw [Nat.succ_mul, Nat.add_comm]
      rw [he]

/-- Claim C7: for a store of M rows and window size W ≥ 1, the batch
windower yields exactly `⌈M/W⌉` batches; every batch but the last has
exactly W rows; the last batch has `M mod W` rows, or W when W divides
M; and an empty store yields zero batches, not one empty batch. -/
theorem batch_windowing (rows : List Record) (W : Nat) (hW : 0 < W) :
    (stream_users_in_batches rows W).length = (rows.length + W - 1) / W
    ∧ (∀ i, i + 1 < (stream_users_in_batches rows W).length →
        ((stream_users_in_batches rows W).getD i []).length = W)
    ∧ (rows ≠ [] →
        ((stream_users_in_batches rows W).map List.length).getLast?
          = some (if rows.length % W = 0 then W else rows.length % W))
    ∧ (rows = [] → stream_users_in_batches rows W = []) := by
  simp only [stream_users_in_batches]
  exact ⟨batchLoop_length rows W hW,
    fun i hi => batchLoop_sizes rows W hW i hi,
    fun hl => batchLoop_last rows W hW hl,
    fun hl => by rw [hl]; exact batchLoop_nil W⟩

/-- Concrete check of claim C7 on the scenario from the spec: 7 rows, window
size 4 gives batches of sizes 4 and 3. -/
theorem batch_windowing_witness :
    (stream_users_in_batches (List.replicate 7 sampleRow) 4).length = 2
    ∧ ((stream_users_in_batches (List.replicate 7 sampleRow) 4).map
        List.length).getLast? = some 3 := by
  constructor
  · have h := (batch_windowing (List.replicate 7 sampleRow) 4 (by decide)).1
    simpa using h
  · have h := (batch_windowing (List.replicate 7 sampleRow) 4 (by decide)).2.2.1
      (by decide)
    simpa using h

/-- The pagination loop stops at the first empty page, after fetching
it. -/
theorem lazyLoop_stop (rows : List Record) (P offset : Nat)
    (h : (rows.drop offset).take P = []) :
    lazyLoop rows P offset = ([], [(offset, P)]) := by
  rw [lazyLoop]
  simp [paginate_users, h]

/-- One iteration of the pagination loop on a non-empty page: yield it,
record the fetch and continue at the advanced offset. -/
theorem lazyLoop_step (rows : List Record) (P offset : Nat)
    (h : (rows.drop offset).take P ≠ []) :
    lazyLoop rows P offset
      = ((rows.drop offset).take P :: (lazyLoop rows P (offset + P)).1,
         (offset, P) :: (lazyLoop rows P (offset + P)).2) := by
  rw [lazyLoop]
  simp [paginate_users, h]

/-- The pagination loop started at `offset` yields the same pages as
windowing the rows from `offset` on, and performs one fetch per page at
offsets `offset, offset + P, offset + 2P, …` plus the final empty
fetch. -/
theorem lazyLoop_spec (rows : List Record) (P : Nat) (hP : 0 < P) :
    ∀ offset,
      (lazyLoop rows P offset).1 = batchLoop (rows.drop offset) P
      ∧ (lazyLoop rows P offset).2
          = (List.range ((batchLoop (rows.drop offset) P).length + 1)).map
              (fun n => (offset + n * P, P)) := by
  intro offset
  induction offset using lazyLoop.induct rows P with
  | case1 offset h =>
    have h2 : (rows.drop offset).take P = [] := h
    have h3 : rows.drop offset = [] := by
      rcases List.take_eq_nil_iff.mp h2 with h4 | h4
      · omega
      · exact h4
    rw [lazyLoop_stop rows P offset h2, h3, batchLoop_nil]
    simp [List.range_succ]
  | case2 offset h ih =>
    have h2 : (rows.drop offset).take P ≠ [] := h
    have hdrop : rows.drop offset ≠ [] := by
      intro hx
      exact h2 (by simp [hx])
    obtain ⟨ih1, ih2⟩ := ih
    rw [lazyLoop_step rows P offset h2,
      batchLoop_cons (rows.drop offset) P hP hdrop,
      List.drop_drop]
    constructor
    · rw [ih1]
    · simp only [List.length_cons]
      rw [ih2]
      conv_rhs => rw [List.range_succ_eq_map]
      rw [List.map_cons, List.map_map]
      simp only [Nat.zero_mul, Nat.add_zero, List.cons.injEq]
      refine ⟨trivial, ?_⟩
      congr 1
      funext n
      simp only [Function.comp_apply]
      have he : offset + Nat.succ n * P = offset + P + n * P := by
        rw [Nat.succ_mul]
        generalize n * P = m
        omega
      rw [he]

/-- Claim C8: over a store of M rows with page size P ≥ 1 the lazy
paginator yields exactly `⌈M/P⌉` pages, all non-empty, the i-th page
(from 0) being the rows fetched at offset `i * P` with limit P;
iteration stops at the first empty page (the fetch trace is exactly one
fetch per page at offsets `0, P, 2P, …` plus the final empty fetch), no
offset is fetched twice, and an empty store yields zero pages. -/
theorem lazy_pagination_correct (rows : List Record) (P : Nat) (hP : 0 < P) :
    (lazy_pagination rows P).1.length = (rows.length + P - 1) / P
    ∧ (∀ pg ∈ (lazy_pagination rows P).1, pg ≠ [])
    ∧ (∀ i, i < (lazy_pagination rows P).1.length →
        (lazy_pagination rows P).1.getD i [] = (rows.drop (i * P)).take P)
    ∧ (lazy_pagination rows P).2
        = (List.range ((lazy_pagination rows P).1.length + 1)).map
            (fun n => (n * P, P))
    ∧ ((lazy_pagination rows P).2.map Prod.fst).Nodup
    ∧ (rows = [] → (lazy_pagination rows P).1 = []) := by
  obtain ⟨h1, h2⟩ := lazyLoop_spec rows P hP 0
  rw [List.drop_zero] at h1 h2
  have hpages : (lazy_pagination rows P).1 = batchLoop rows P := h1
  have hfetch : (lazy_pagination rows P).2
      = (List.range ((batchLoop rows P).length + 1)).map (fun n => (n * P, P)) := by
    rw [show (lazy_pagination rows P).2 = (lazyLoop rows P 0).2 from rfl, h2]
    congr 1
    funext n
    simp
  refine ⟨?_, ?_, ?_, ?_, ?_, ?_⟩
  · rw [hpages]
    exact batchLoop_length rows P hP
  · rw [hpages]
    exact batchLoop_ne_nil rows P
  · intro i hi
    rw [hpages] at hi ⊢
    exact batchLoop_getD rows P hP i hi
  · rw [hfetch, hpages]
  · rw [hfetch, List.map_map]
    have hcomp : (Prod.fst ∘ fun n => (n * P, P)) = fun n : Nat => n * P := by
      funext n
      rfl
    rw [hcomp]
    exact (List.nodup_range _).map
      (fun a b hab => Nat.eq_of_mul_eq_mul_right hP hab)
  · intro hl
    rw [hpages, hl]
    exact batchLoop_nil P

/-- Concrete check of claim C8 on the scenario from the spec: 7 rows, page
size 3 gives 3 pages and fetches at offsets 0, 3, 6 and the final empty
fetch at 9. -/
theorem lazy_pagination_correct_witness :
    (lazy_pagination (List.replicate 7 sampleRow) 3).1.length = 3
    ∧ (lazy_pagination (List.replicate 7 sampleRow) 3).2
        = [(0, 3), (3, 3), (6, 3), (9, 3)] := by
  have h := lazy_pagination_correct (List.replicate 7 sampleRow) 3 (by decide)
  constructor
  · have h1 := h.1
    simpa using h1
  · have h4 := h.2.2.2.1
    have h1 := h.1
    rw [h1] at h4
    simpa using h4

/-- Scheduling the second task once: the state of the first task is
untouched; the remaining work of the second task decreases by one and its
result is recorded exactly when it has now been scheduled at least its
duration. -/
theorem stepTask_false (α β : Type) (t1 : AsyncTask α) (t2 : AsyncTask β)
    (s : GatherState α β) (n2 : Nat)
    (h2 : s.rem2 = t2.duration - n2)
    (h2r : s.res2 = (if t2.duration ≤ n2 then some t2.result else none)) :
    (stepTask t1 t2 s false).rem1 = s.rem1
    ∧ (stepTask t1 t2 s false).res1 = s.res1
    ∧ (stepTask t1 t2 s false).rem2 = t2.duration - (n2 + 1)
    ∧ (stepTask t1 t2 s false).res2
        = (if t2.duration ≤ n2 + 1 then some t2.result else none) := by
  cases hm : s.rem2 with
  | zero =>
    have hd : t2.duration ≤ n2 := by omega
    refine ⟨by simp [stepTask, hm], by simp [stepTask, hm], ?_, ?_⟩
    · simp [stepTask, hm]
      omega
    · simp [stepTask, hm, h2r, hd]
      omega
  | succ m =>
    have hd : t2.duration = n2 + m + 1 := by omega
    refine ⟨by simp [stepTask, hm], by simp [stepTask, hm], ?_, ?_⟩
    · simp [stepTask, hm]
      omega
    · simp only [stepTask, if_false, Bool.false_eq_true, hm]
      cases m with
      | zero => simp [show t2.duration ≤ n2 + 1 by omega]
      | succ m2 =>
        simp [h2r]
        rw [if_neg (by omega), if_neg (by omega)]

/-- Scheduling the first task once, symmetric to `stepTask_false`. -/
theorem stepTask_true (α β : Type) (t1 : AsyncTask α) (t2 : AsyncTask β)
    (s : GatherState α β) (n1 : Nat)
    (h1 : s.rem1 = t1.duration - n1)
    (h1r : s.res1 = (if t1.duration ≤ n1 then some t1.result else none)) :
    (stepTask t1 t2 s true).rem2 = s.rem2
    ∧ (stepTask t1 t2 s true).res2 = s.res2
    ∧ (stepTask t1 t2 s true).rem1 = t1.duration - (n1 + 1)
    ∧ (stepTask t1 t2 s true).res1
        = (if t1.duration ≤ n1 + 1 then some t1.result else none) := by
  cases hm : s.rem1 with
  | zero =>
    have hd : t1.duration ≤ n1 := by omega
    refine ⟨by simp [stepTask, hm], by simp [stepTask, hm], ?_, ?_⟩
    · simp [stepTask, hm]
      omega
    · simp [stepTask, hm, h1r, hd]
      omega
  | succ m =>
    have hd : t1.duration = n1 + m + 1 := by omega
    refine ⟨by simp [stepTask, hm], by simp [stepTask, hm], ?_, ?_⟩
    · simp [stepTask, hm]
      omega
    · simp only [stepTask, if_true, hm]
      cases m with
      | zero => simp [show t1.duration ≤ n1 + 1 by omega]
      | succ m2 =>
        simp [h1r]
        rw [if_neg (by omega), if_neg (by omega)]

/-- Running the scheduler over any interleaving: the result of each task is
recorded exactly when the interleaving has scheduled it at least its
duration many times. -/
theorem runSched_spec (α β : Type) (t1 : AsyncTask α) (t2 : AsyncTask β) :
    ∀ (sched : List Bool) (s : GatherState α β) (n1 n2 : Nat),
      s.rem1 = t1.duration - n1 →
      s.res1 = (if t1.duration ≤ n1 then some t1.result else none) →
      s.rem2 = t2.duration - n2 →
      s.res2 = (if t2.duration ≤ n2 then some t2.result else none) →
      (runSched t1 t2 s sched).res1
          = (if t1.duration ≤ n1 + sched.count true then some t1.result else none)
      ∧ (runSched t1 t2 s sched).res2
          = (if t2.duration ≤ n2 + sched.count false then some t2.result else none) := by
  intro sched
  induction sched with
  | nil =>
    intro s n1 n2 h1 h1r h2 h2r
    simp [runSched, h1r, h2r]
  | cons b rest ih =>
    intro s n1 n2 h1 h1r h2 h2r
    cases b
    · obtain ⟨k1, k1r, k2, k2r⟩ := stepTask_false α β t1 t2 s n2 h2 h2r
      have hrec := ih (stepTask t1 t2 s false) n1 (n2 + 1)
        (by rw [k1, h1]) (by rw [k1r, h1r]) k2 k2r
      have hc1 : (false :: rest).count true = rest.count true := by
        simp [List.count_cons]
      have hc2 : n2 + (false :: rest).count false = n2 + 1 + rest.count false := by
        simp [List.count_cons]
        omega
      rw [runSched, hc1, hc2]
      exact hrec
    · obtain ⟨k2, k2r, k1, k1r⟩ := stepTask_true α β t1 t2 s n1 h1 h1r
      have hrec := ih (stepTask t1 t2 s true) (n1 + 1) n2
        k1 k1r (by rw [k2, h2]) (by rw [k2r, h2r])
      have hc1 : n1 + (true :: rest).count true = n1 + 1 + rest.count true := by
        simp [List.count_cons]
        omega
      have hc2 : (true :: rest).count false = rest.count false := by
        simp [List.count_cons]
      rw [runSched, hc1, hc2]
      exact hrec

/-- Claim C9: under every interleaving, `fetch_concurrently` resolves
only once both scheduled operations have completed (it is still pending
whenever either has remaining work), and whenever it resolves, the
returned collection is ordered by input position — the result of the
first-listed operation comes first — not by completion order; this holds in
particular for interleavings in which the first operation takes longer
than the second. -/
theorem fetch_concurrently_join (α β : Type) (t1 : AsyncTask α)
    (t2 : AsyncTask β) (sched : List Bool) :
    (∀ p, fetch_concurrently t1 t2 sched = some p → p = (t1.result, t2.result))
    ∧ (fetch_concurrently t1 t2 sched ≠ none ↔
        t1.duration ≤ sched.count true ∧ t2.duration ≤ sched.count false) := by
  have h := runSched_spec α β t1 t2 sched (initState t1 t2) 0 0
    (by simp [initState]) (by simp [initState, Nat.le_zero])
    (by simp [initState]) (by simp [initState, Nat.le_zero])
  by_cases hc1 : t1.duration ≤ sched.count true <;>
    by_cases hc2 : t2.duration ≤ sched.count false <;>
      constructor <;>
        simp [fetch_concurrently, gatherResult, h.1, h.2, hc1, hc2]

/-- Concrete check of claim C9: the first operation takes 3 steps and
the second 1; under an interleaving in which the second completes first,
the joined result is still ordered by input position, and a shorter
interleaving in which the first operation has not finished yields no
result yet. -/
theorem fetch_concurrently_join_witness :
    fetch_concurrently (AsyncTask.mk 3 "all users") (AsyncTask.mk 1 "older users")
      [false, true, true, true] = some ("all users", "older users")
    ∧ fetch_concurrently (AsyncTask.mk 3 "all users") (AsyncTask.mk 1 "older users")
      [false, true, true] = none := by
  refine ⟨rfl, ?_⟩
  have h := (fetch_concurrently_join String String (AsyncTask.mk 3 "all users")
    (AsyncTask.mk 1 "older users") [false, true, true]).2
  by_contra hne
  have hcount := h.mp hne
  simp [List.count_cons] at hcount

end AccessLayer
